import Mathlib

/-!
Verification of the cryptlib-derived bignum support routines in
`CryptographyCore/context/ctx_bn.c` (OpenCKMS repository).

The C code is shallowly embedded: each C function becomes a Lean function on
explicit state.  Machine words are modelled as `Nat` (the routines verified
here only move, clear, OR and mask words, so no wrap-around arithmetic
arises).  Arrays are modelled as total functions `Nat → _`; the C code only
accesses them inside the bounds guaranteed by the `REQUIRES`/sanity checks,
which the embedding reproduces.

Failure conventions of the C macros are preserved:
 - `REQUIRES_B` / `REQUIRES_N` failing makes the function return
   FALSE / NULL without mutating anything: modelled by `Option` results;
 - `REQUIRES_V` / `ENSURES_V` failing makes a void function return early,
   keeping whatever mutations already happened: modelled by returning the
   state reached so far.
-/

namespace CtxBn

/-- Pointwise update of a function-modelled C array. -/
def update {α : Type} (f : Nat → α) (i : Nat) (v : α) : Nat → α :=
  fun j => if j = i then v else f j

/-! ### Configuration constants

These constants come from `context.h` / `bn.h`, which are not part of the
excerpted source.  Modelled from the spec: fixed word capacities for the
three allocation classes (standard, extended-A, extended-B, the extended
classes strictly larger), a fixed-size standard pool, a one-slot extended-A
pool and a two-slot extended-B pool (the code indexes `bnExtArray[0]` and
`bnExt2Array[0..1]`), and OpenSSL-style flag bits. -/

def BN_BITS2 : Nat := 64

def BIGNUM_ALLOC_WORDS : Nat := 64

def BIGNUM_ALLOC_WORDS_EXT : Nat := 129

def BIGNUM_ALLOC_WORDS_EXT2 : Nat := 130

def BN_CTX_ARRAY_SIZE : Nat := 40

def BN_CTX_EXTARRAY_SIZE : Nat := 1

def BN_CTX_EXT2ARRAY_SIZE : Nat := 2

def BN_FLG_NONE : Nat := 0

def BN_FLG_MALLOCED : Nat := 1

def BN_FLG_STATIC_DATA : Nat := 2

def BN_FLG_ALLOC_EXT : Nat := 4

def BN_FLG_ALLOC_EXT2 : Nat := 8

def BN_FLG_MAX : Nat := 15

/-! ### Data model -/

/-- The `BIGNUM` struct: word array `d`, used length `top`, capacity `dmax`,
sign `neg`, allocation-class flags.  `BIGNUM_EXT`/`BIGNUM_EXT2` share this
layout with a larger `d` capacity, distinguished by the flags. -/
structure BIGNUM where
  d : Nat → Nat
  top : Nat
  dmax : Nat
  neg : Bool
  flags : Nat

/-- The `BN_CTX` struct: the standard bignum pool, the two extended pools,
the checkpoint boundary stack, the stack depth and the diagnostic
high-water mark `bnArrayMax`. -/
structure BN_CTX where
  bnArray : Nat → BIGNUM
  bnExtArray : Nat → BIGNUM
  bnExt2Array : Nat → BIGNUM
  stack : Nat → Nat
  stackPos : Nat
  bnArrayMax : Nat

/-! ### Utility functions (`getBNMaxSize`, sanity checks) -/

/-- C `getBNMaxSize`: capacity ceiling for the bignum's allocation class. -/
def getBNMaxSize (bignum : BIGNUM) : Nat :=
  if bignum.flags &&& BN_FLG_ALLOC_EXT ≠ 0 then BIGNUM_ALLOC_WORDS_EXT
  else if bignum.flags &&& BN_FLG_ALLOC_EXT2 ≠ 0 then BIGNUM_ALLOC_WORDS_EXT2
  else BIGNUM_ALLOC_WORDS

/-- C `sanityCheckBignum`.  `top ≥ 0` and the two-valuedness of `neg` hold
by typing (`Nat`, `Bool`). -/
def sanityCheckBignum (bignum : BIGNUM) : Bool :=
  if bignum.dmax < 1 ∨ bignum.dmax > getBNMaxSize bignum then false
  else if bignum.top > bignum.dmax then false
  else if bignum.flags > BN_FLG_MAX then false
  else true

/-- C `sanityCheckBNCTX`.  `bnArrayMax ≥ 0` and `stackPos ≥ 0` hold by
typing. -/
def sanityCheckBNCTX (bnCTX : BN_CTX) : Bool :=
  if bnCTX.bnArrayMax > BN_CTX_ARRAY_SIZE then false
  else if bnCTX.stackPos ≥ BN_CTX_ARRAY_SIZE then false
  else true

/-! ### Miscellaneous bignum routines -/

/-- C `BN_clear`: `REQUIRES_V` the sanity check (early return leaves an
insane bignum untouched); then, unless the bignum is static data, zeroise
all `dmax` words and reset `top` and `neg`. -/
def BN_clear (bignum : BIGNUM) : BIGNUM :=
  if ¬ sanityCheckBignum bignum then bignum
  else if bignum.flags &&& BN_FLG_STATIC_DATA ≠ 0 then bignum
  else { bignum with
          d := fun i => if i < bignum.dmax then 0 else bignum.d i,
          top := 0,
          neg := false }

/-- C `BN_init`: zero-fill, standard capacity. -/
def BN_init : BIGNUM :=
  { d := fun _ => 0, top := 0, dmax := BIGNUM_ALLOC_WORDS, neg := false,
    flags := BN_FLG_NONE }

/-- C `BN_init_ext`: zero-fill with extended capacity and the matching
allocation-class flag. -/
def BN_init_ext (isExt2Bignum : Bool) : BIGNUM :=
  if isExt2Bignum then
    { d := fun _ => 0, top := 0, dmax := BIGNUM_ALLOC_WORDS_EXT2,
      neg := false, flags := BN_FLG_ALLOC_EXT2 }
  else
    { d := fun _ => 0, top := 0, dmax := BIGNUM_ALLOC_WORDS_EXT,
      neg := false, flags := BN_FLG_ALLOC_EXT }

/-- C `BN_copy`: `REQUIRES_N` both sanity checks and
`destBignum->dmax >= srcBignum->top`, then copy exactly `src.top` words,
`top` and `neg`; `dmax` and `flags` are deliberately not copied. -/
def BN_copy (destBignum srcBignum : BIGNUM) : Option BIGNUM :=
  if ¬ sanityCheckBignum destBignum then none
  else if ¬ sanityCheckBignum srcBignum then none
  else if ¬ (destBignum.dmax ≥ srcBignum.top) then none
  else some { destBignum with
               d := fun i => if i < srcBignum.top then srcBignum.d i
                             else destBignum.d i,
               top := srcBignum.top,
               neg := srcBignum.neg }

/-- C `BN_swap`: both `REQUIRES_V` lines in the source test
`bignum1->flags`; the second operand's flags are never examined.  The three
`BN_copy` steps abort the remaining steps on NULL (the trailing
`ENSURES_V` then returns with the mutations made so far). -/
def BN_swap (bignum1 bignum2 : BIGNUM) : BIGNUM × BIGNUM :=
  if bignum1.flags &&& BN_FLG_STATIC_DATA ≠ 0 then (bignum1, bignum2)
  else if bignum1.flags &&& BN_FLG_STATIC_DATA ≠ 0 then (bignum1, bignum2)
  else
    match BN_copy BN_init bignum1 with
    | none => (bignum1, bignum2)
    | some tmp =>
      match BN_copy bignum1 bignum2 with
      | none => (bignum1, bignum2)
      | some bignum1x =>
        match BN_copy bignum2 tmp with
        | none => (bignum1x, bignum2)
        | some bignum2x => (bignum1x, bignum2x)

/-- C `BN_value_one`: the static read-only constant 1. -/
def BN_value_one : BIGNUM :=
  { d := fun i => if i = 0 then 1 else 0, top := 1,
    dmax := BIGNUM_ALLOC_WORDS, neg := false, flags := BN_FLG_STATIC_DATA }

/-- The header macro `BN_is_zero`, absent from the excerpted source.
Modelled from the spec: canonical zero means numeric value zero iff
`top == 0`. -/
def BN_is_zero (bignum : BIGNUM) : Bool :=
  bignum.top = 0

/-- C `BN_set_word`: `REQUIRES_B` sanity and non-static, then clear, store
the word, and set `top` to 1 for a nonzero word and 0 for zero. -/
def BN_set_word (bignum : BIGNUM) (word : Nat) : Option BIGNUM :=
  if ¬ sanityCheckBignum bignum then none
  else if bignum.flags &&& BN_FLG_STATIC_DATA ≠ 0 then none
  else
    let cleared := BN_clear bignum
    some { cleared with
            d := update cleared.d 0 word,
            top := if word ≠ 0 then 1 else 0 }

/-- C `BN_set_negative`: early return on a zero-valued bignum, otherwise
set `neg` from the truthiness of `value`. -/
def BN_set_negative (bignum : BIGNUM) (value : Int) : BIGNUM :=
  if BN_is_zero bignum then bignum
  else { bignum with neg := value ≠ 0 }

/-- C `BN_set_bit`: `REQUIRES_B` sanity, non-static and
`0 ≤ bitNo < dmax·BN_BITS2`; zero-fill any words between the old `top` and
the word holding the new bit, extend `top`, then OR the bit in.  The
extension loop ends with its counter at `wordIndex + 1`, and the following
`ENSURES_B( index < iterationBound )` with
`iterationBound = getBNMaxSize( bignum )` makes the function return FALSE
— without extending `top` or setting the bit — whenever the extension
reaches the final word of the class maximum.  (On that path the C code has
already zeroed the words from `top` to `wordIndex`, all at or above `top`
and hence value-invisible; the `none` result captures the FALSE return.) -/
def BN_set_bit (bignum : BIGNUM) (bitNo : Nat) : Option BIGNUM :=
  let wordIndex := bitNo / BN_BITS2
  let bitIndex := bitNo % BN_BITS2
  if ¬ sanityCheckBignum bignum then none
  else if bignum.flags &&& BN_FLG_STATIC_DATA ≠ 0 then none
  else if ¬ (bitNo < bignum.dmax * BN_BITS2) then none
  else if bignum.top < wordIndex + 1 then
    if ¬ (wordIndex < bignum.dmax) then none
    else if ¬ (wordIndex + 1 < getBNMaxSize bignum) then none
    else
      let d1 := fun i => if bignum.top ≤ i ∧ i < wordIndex + 1 then 0
                         else bignum.d i
      some { bignum with
              d := update d1 wordIndex (d1 wordIndex ||| 2 ^ bitIndex),
              top := wordIndex + 1 }
  else
    some { bignum with
            d := update bignum.d wordIndex
                   (bignum.d wordIndex ||| 2 ^ bitIndex) }

/-- C `BN_is_bit_set`: the bit number is a C `int` and may be negative;
`REQUIRES_B` failure, a negative index and an index at or past `top` all
return FALSE. -/
def BN_is_bit_set (bignum : BIGNUM) (bitNo : Int) : Bool :=
  if ¬ sanityCheckBignum bignum then false
  else if ¬ (bitNo < (bignum.dmax * BN_BITS2 : Nat)) then false
  else if bitNo < 0 then false
  else
    let wordIndex := bitNo.toNat / BN_BITS2
    let bitIndex := bitNo.toNat % BN_BITS2
    if wordIndex ≥ bignum.top then false
    else decide (bignum.d wordIndex &&& 2 ^ bitIndex ≠ 0)

/-- Numeric magnitude of the first `n` words, little-endian base `2^64`. -/
def wordsValue (d : Nat → Nat) : Nat → Nat
  | 0 => 0
  | n + 1 => wordsValue d n + d n * 2 ^ (BN_BITS2 * n)

/-- Signed numeric value of a bignum: the magnitude of its `top` used
words, negated when `neg` is set. -/
def bnValue (bignum : BIGNUM) : Int :=
  if bignum.neg then -(wordsValue bignum.d bignum.top : Int)
  else (wordsValue bignum.d bignum.top : Int)

/-! ### BN_CTX support routines -/

/-- C `BN_CTX_init`: zero the whole struct, then `BN_init` every standard
pool slot and `BN_init_ext` every extended slot. -/
def BN_CTX_init : BN_CTX :=
  { bnArray := fun _ => BN_init,
    bnExtArray := fun _ => BN_init_ext false,
    bnExt2Array := fun _ => BN_init_ext true,
    stack := fun _ => 0,
    stackPos := 0,
    bnArrayMax := 0 }

/-- C `BN_CTX_start`: `REQUIRES_V` the sanity check (early return leaves
the context untouched), then advance one stack frame, duplicating the
current boundary. -/
def BN_CTX_start (bnCTX : BN_CTX) : BN_CTX :=
  if ¬ sanityCheckBNCTX bnCTX then bnCTX
  else
    let pos := bnCTX.stackPos + 1
    { bnCTX with
       stackPos := pos,
       stack := update bnCTX.stack pos (bnCTX.stack (pos - 1)) }

/-- C `BN_CTX_end`: `REQUIRES_V` sanity and non-decreasing boundaries,
`BN_clear` each pool slot in `[stack[stackPos-1], stack[stackPos])` (the
loop also stops at `BN_CTX_ARRAY_SIZE`), then — only if the loop counter
stayed below the array size (`ENSURES_V`, otherwise the function returns
with the slots cleared but the frame not popped) — zero the top boundary
and decrement the depth. -/
def BN_CTX_end (bnCTX : BN_CTX) : BN_CTX :=
  if ¬ sanityCheckBNCTX bnCTX then bnCTX
  else if ¬ (bnCTX.stack (bnCTX.stackPos - 1) ≤ bnCTX.stack bnCTX.stackPos)
    then bnCTX
  else
    let lo := bnCTX.stack (bnCTX.stackPos - 1)
    let hi := bnCTX.stack bnCTX.stackPos
    let cleared := fun j => if lo ≤ j ∧ j < hi ∧ j < BN_CTX_ARRAY_SIZE
                            then BN_clear (bnCTX.bnArray j)
                            else bnCTX.bnArray j
    let iFinal := max lo (min hi BN_CTX_ARRAY_SIZE)
    if iFinal ≥ BN_CTX_ARRAY_SIZE then { bnCTX with bnArray := cleared }
    else
      { bnCTX with
         bnArray := cleared,
         stack := update bnCTX.stack bnCTX.stackPos 0,
         stackPos := bnCTX.stackPos - 1 }

/-- C `BN_CTX_get`.  The result is the returned pointer (as a pool index,
NULL as `none`) together with the context state after the call.  The
overflow test is on the historical high-water mark `bnArrayMax`; on the
success path the top boundary advances and `bnArrayMax` is raised to it if
exceeded.  A trailing `ENSURES_N` failure returns NULL with the mutation
kept. -/
def BN_CTX_get (bnCTX : BN_CTX) : Option Nat × BN_CTX :=
  let arrayIndex := bnCTX.stack bnCTX.stackPos + 1
  if bnCTX.bnArrayMax ≥ BN_CTX_ARRAY_SIZE then (none, bnCTX)
  else if ¬ sanityCheckBNCTX bnCTX then (none, bnCTX)
  else
    let bnCTXx :=
      { bnCTX with
         stack := update bnCTX.stack bnCTX.stackPos arrayIndex,
         bnArrayMax := if arrayIndex > bnCTX.bnArrayMax then arrayIndex
                       else bnCTX.bnArrayMax }
    if ¬ sanityCheckBNCTX bnCTXx then (none, bnCTXx)
    else (some (arrayIndex - 1), bnCTXx)

/-- The C `BIGNUM_EXT_TYPE` enumeration, including its range sentinels. -/
inductive BIGNUM_EXT_TYPE where
  | NONE
  | MONT
  | MUL1
  | MUL2
  | LAST
deriving DecidableEq

/-- The slot address computed by C `BN_CTX_get_ext`: which extended array
(`true` for `bnExt2Array`) and which index.  It depends only on the
purpose tag, never on the context state; the sentinels fail the
`ENSURES_N` range check and yield NULL. -/
def BN_CTX_get_ext_ref (bnExtType : BIGNUM_EXT_TYPE) : Option (Bool × Nat) :=
  match bnExtType with
  | .NONE => none
  | .MONT => some (false, 0)
  | .MUL1 => some (true, 0)
  | .MUL2 => some (true, 1)
  | .LAST => none

/-- C `BN_CTX_get_ext`: the bignum at the address chosen by the tag. -/
def BN_CTX_get_ext (bnCTX : BN_CTX) (bnExtType : BIGNUM_EXT_TYPE) :
    Option BIGNUM :=
  (BN_CTX_get_ext_ref bnExtType).map
    (fun ref => if ref.1 then bnCTX.bnExt2Array ref.2
                else bnCTX.bnExtArray ref.2)

/-- C `BN_CTX_end_ext`: always performs the standard `BN_CTX_end` first;
the following `ENSURES_V` admits only `MUL1` and `MONT` (any other tag
returns with just the standard cleanup done).  `MUL1` clears both
`bnExt2Array` slots, `MONT` clears `bnExtArray[0]`. -/
def BN_CTX_end_ext (bnCTX : BN_CTX) (bnExtType : BIGNUM_EXT_TYPE) : BN_CTX :=
  let c1 := BN_CTX_end bnCTX
  if bnExtType = .MUL1 then
    { c1 with
       bnExt2Array := fun i =>
         if i = 0 ∨ i = 1 then BN_clear (c1.bnExt2Array i)
         else c1.bnExt2Array i }
  else if bnExtType = .MONT then
    { c1 with
       bnExtArray := update c1.bnExtArray 0 (BN_clear (c1.bnExtArray 0)) }
  else c1

/-! ### Scenario plumbing

`BN_CTX_getN` runs `n` consecutive `BN_CTX_get` calls, collecting the
returned pool indices; it fails if any call returns NULL.  `CtxReach`
captures the context states reachable through the public API from
`BN_CTX_init`, including arbitrary caller writes through previously
returned pool pointers (modelled as replacing the pool arrays, which only
ever over-approximates what a caller can do through them). -/

def BN_CTX_getN : BN_CTX → Nat → Option (List Nat × BN_CTX)
  | bnCTX, 0 => some ([], bnCTX)
  | bnCTX, n + 1 =>
    match BN_CTX_get bnCTX with
    | (some idx, bnCTXx) =>
      (BN_CTX_getN bnCTXx n).map (fun r => (idx :: r.1, r.2))
    | (none, _) => none

/-- Context states reachable through the allocator API. -/
inductive CtxReach : BN_CTX → Prop where
  | init : CtxReach BN_CTX_init
  | start (c : BN_CTX) : CtxReach c → CtxReach (BN_CTX_start c)
  | stop (c : BN_CTX) : CtxReach c → CtxReach (BN_CTX_end c)
  | get (c : BN_CTX) : CtxReach c → CtxReach (BN_CTX_get c).2
  | stopExt (c : BN_CTX) (t : BIGNUM_EXT_TYPE) :
      CtxReach c → CtxReach (BN_CTX_end_ext c t)
  | write (c : BN_CTX) (w we we2 : Nat → BIGNUM) :
      CtxReach c →
      CtxReach { c with bnArray := w, bnExtArray := we, bnExt2Array := we2 }

/-! ### Helper lemmas -/

theorem update_at {α : Type} (f : Nat → α) (i : Nat) (v : α) :
    update f i v i = v := by
  simp [update]

theorem update_ne {α : Type} (f : Nat → α) (i j : Nat) (v : α) (h : j ≠ i) :
    update f i v j = f j := by
  simp [update, h]

theorem wordsValue_congr (d1 d2 : Nat → Nat) :
    ∀ n, (∀ i, i < n → d1 i = d2 i) → wordsValue d1 n = wordsValue d2 n := by
  intro n
  induction n with
  | zero => intro _; rfl
  | succ n ih =>
    intro h
    simp only [wordsValue]
    rw [ih (fun i hi => h i (Nat.lt_succ_of_lt hi)), h n (Nat.lt_succ_self n)]

theorem lor_two_pow_and_ne (x k : Nat) : (x ||| 2 ^ k) &&& 2 ^ k ≠ 0 := by
  rw [Nat.and_two_pow, Nat.testBit_lor, Nat.testBit_two_pow_self]
  simp

theorem sanityCheckBignum_iff (b : BIGNUM) :
    sanityCheckBignum b = true ↔
      1 ≤ b.dmax ∧ b.dmax ≤ getBNMaxSize b ∧ b.top ≤ b.dmax ∧
      b.flags ≤ BN_FLG_MAX := by
  unfold sanityCheckBignum
  split_ifs with h1 h2 h3 <;> simp <;> omega

theorem is_bit_set_neg_index (b : BIGNUM) (i : Int) (h : i < 0) :
    BN_is_bit_set b i = false := by
  simp only [BN_is_bit_set]
  split
  · rfl
  · split
    · rfl
    · simp [h]

theorem is_bit_set_beyond_top (b : BIGNUM) (j : Nat)
    (h : b.top ≤ j / BN_BITS2) : BN_is_bit_set b (j : Int) = false := by
  simp only [BN_is_bit_set]
  split
  · rfl
  · split
    · rfl
    · split
      · rfl
      · rw [if_pos]
        rw [Int.toNat_natCast]
        exact h

theorem is_bit_set_true_of (b : BIGNUM) (bitNo : Nat)
    (hs : sanityCheckBignum b = true) (hcap : bitNo < b.dmax * BN_BITS2)
    (htop : bitNo / BN_BITS2 < b.top)
    (hbit : b.d (bitNo / BN_BITS2) &&& 2 ^ (bitNo % BN_BITS2) ≠ 0) :
    BN_is_bit_set b (bitNo : Int) = true := by
  have hnn : ¬ ((bitNo : Int) < 0) := by omega
  simp [BN_is_bit_set, hs, hnn, Int.toNat_natCast, hbit]
  exact ⟨by exact_mod_cast hcap, htop⟩

theorem set_bit_spec (b : BIGNUM) (bitNo : Nat)
    (hs : sanityCheckBignum b = true)
    (hstat : b.flags &&& BN_FLG_STATIC_DATA = 0)
    (hcap : bitNo < b.dmax * BN_BITS2)
    (hlast : bitNo / BN_BITS2 < b.top ∨
             bitNo / BN_BITS2 + 1 < getBNMaxSize b) :
    ∃ bx, BN_set_bit b bitNo = some bx ∧
      bx.dmax = b.dmax ∧ bx.flags = b.flags ∧
      bitNo / BN_BITS2 < bx.top ∧ bx.top ≤ b.dmax ∧
      bx.d (bitNo / BN_BITS2) &&& 2 ^ (bitNo % BN_BITS2) ≠ 0 := by
  have h64 : 0 < BN_BITS2 := by decide
  have hwlt : bitNo / BN_BITS2 < b.dmax := (Nat.div_lt_iff_lt_mul h64).mpr hcap
  have htdm : b.top ≤ b.dmax := ((sanityCheckBignum_iff b).mp hs).2.2.1
  by_cases hext : b.top < bitNo / BN_BITS2 + 1
  · have hbound : bitNo / BN_BITS2 + 1 < getBNMaxSize b := by
      rcases hlast with hl | hl
      · omega
      · exact hl
    refine ⟨{ b with
               d := update
                 (fun i => if b.top ≤ i ∧ i < bitNo / BN_BITS2 + 1 then 0
                           else b.d i)
                 (bitNo / BN_BITS2)
                 ((fun i => if b.top ≤ i ∧ i < bitNo / BN_BITS2 + 1 then 0
                            else b.d i) (bitNo / BN_BITS2)
                   ||| 2 ^ (bitNo % BN_BITS2)),
               top := bitNo / BN_BITS2 + 1 }, ?_, rfl, rfl, ?_, ?_, ?_⟩
    · simp [BN_set_bit, hs, hstat, hcap, hext, hwlt, hbound]
    · exact Nat.lt_succ_self _
    · show bitNo / BN_BITS2 + 1 ≤ b.dmax
      omega
    · simp only [update_at]
      exact lor_two_pow_and_ne _ _
  · refine ⟨{ b with
               d := update b.d (bitNo / BN_BITS2)
                 (b.d (bitNo / BN_BITS2) ||| 2 ^ (bitNo % BN_BITS2)) },
            ?_, rfl, rfl, ?_, ?_, ?_⟩
    · simp [BN_set_bit, hs, hstat, hcap, hext, hwlt]
    · show bitNo / BN_BITS2 < b.top
      omega
    · exact htdm
    · simp only [update_at]
      exact lor_two_pow_and_ne _ _

/-- A sample one-word nonstatic bignum of value 5, used as concrete input. -/
def bnFive : BIGNUM :=
  { d := fun i => if i = 0 then 5 else 0, top := 1,
    dmax := BIGNUM_ALLOC_WORDS, neg := false, flags := BN_FLG_NONE }

/-! ### Claim theorems -/

/-- C4: for bignums `src` and `dest` passing the sanity checks with
`dest.dmax ≥ src.top`, `BN_copy` succeeds, `dest` afterwards has the same
numeric value and sign as `src` (exactly `src.top` words plus the sign flag
were copied), and `dest`'s capacity `dmax` and allocation-class `flags` are
unchanged. -/
theorem BN_copy_preserves_value (dest src : BIGNUM)
    (hd : sanityCheckBignum dest = true) (hs : sanityCheckBignum src = true)
    (hcap : src.top ≤ dest.dmax) :
    ∃ destx, BN_copy dest src = some destx ∧
      bnValue destx = bnValue src ∧
      destx.neg = src.neg ∧ destx.top = src.top ∧
      (∀ i, i < src.top → destx.d i = src.d i) ∧
      (∀ i, src.top ≤ i → destx.d i = dest.d i) ∧
      destx.dmax = dest.dmax ∧ destx.flags = dest.flags := by
  refine ⟨{ dest with
             d := fun i => if i < src.top then src.d i else dest.d i,
             top := src.top, neg := src.neg },
          ?_, ?_, rfl, rfl, ?_, ?_, rfl, rfl⟩
  · simp [BN_copy, hd, hs, hcap]
  · simp only [bnValue]
    have hv : wordsValue
        (fun i => if i < src.top then src.d i else dest.d i) src.top
        = wordsValue src.d src.top :=
      wordsValue_congr _ _ src.top (fun i hi => by simp [hi])
    rw [hv]
  · intro i hi
    simp [hi]
  · intro i hi
    have hni : ¬ (i < src.top) := not_lt.mpr hi
    simp [hni]

/-- Witness for C4 at concrete inputs. -/
theorem BN_copy_preserves_value_w :
    sanityCheckBignum BN_init = true ∧ sanityCheckBignum bnFive = true ∧
    bnFive.top ≤ BN_init.dmax ∧
    ∃ destx, BN_copy BN_init bnFive = some destx ∧
      bnValue destx = bnValue bnFive ∧
      destx.neg = bnFive.neg ∧ destx.top = bnFive.top ∧
      (∀ i, i < bnFive.top → destx.d i = bnFive.d i) ∧
      (∀ i, bnFive.top ≤ i → destx.d i = BN_init.d i) ∧
      destx.dmax = BN_init.dmax ∧ destx.flags = BN_init.flags :=
  ⟨by decide, by decide, by decide,
   BN_copy_preserves_value BN_init bnFive (by decide) (by decide) (by decide)⟩

/-- C5: canonical zero.  `BN_set_word` with word 0 on a sane, non-static
bignum succeeds and yields `top = 0` with `neg = false`, and
`BN_set_negative` on a canonical zero (`top = 0`, `neg = false`) leaves the
bignum unchanged, so `neg` stays `false` for any requested sign. -/
theorem canonical_zero_preserved :
    (∀ b : BIGNUM, sanityCheckBignum b = true →
        b.flags &&& BN_FLG_STATIC_DATA = 0 →
        ∃ bx, BN_set_word b 0 = some bx ∧ bx.top = 0 ∧ bx.neg = false) ∧
    (∀ (b : BIGNUM) (v : Int), b.top = 0 →
        BN_set_negative b v = b ∧
        (b.neg = false → (BN_set_negative b v).neg = false)) := by
  constructor
  · intro b hs hstat
    refine ⟨{ BN_clear b with d := update (BN_clear b).d 0 0, top := 0 },
            ?_, rfl, ?_⟩
    · simp [BN_set_word, hs, hstat]
    · simp [BN_clear, hs, hstat]
  · intro b v htop
    have hz : BN_is_zero b = true := by simp [BN_is_zero, htop]
    constructor
    · simp [BN_set_negative, hz]
    · intro hn
      simp [BN_set_negative, hz, hn]

/-- Witness for C5 at concrete inputs. -/
theorem canonical_zero_preserved_w :
    (sanityCheckBignum bnFive = true ∧
     bnFive.flags &&& BN_FLG_STATIC_DATA = 0 ∧
     ∃ bx, BN_set_word bnFive 0 = some bx ∧ bx.top = 0 ∧ bx.neg = false) ∧
    (BN_init.top = 0 ∧ BN_set_negative BN_init 1 = BN_init ∧
     (BN_init.neg = false → (BN_set_negative BN_init 1).neg = false)) :=
  ⟨⟨by decide, by decide,
    canonical_zero_preserved.1 bnFive (by decide) (by decide)⟩,
   ⟨rfl, (canonical_zero_preserved.2 BN_init 1 rfl).1,
    (canonical_zero_preserved.2 BN_init 1 rfl).2⟩⟩

/-- C6 (amended): bit round-trip.  For a sane, non-static bignum and any
bit index within its capacity whose word either already lies below the
current `top` or is not the final word of the allocation-class maximum,
`BN_set_bit` succeeds and the subsequent `BN_is_bit_set` returns true; and
prior to the call `BN_is_bit_set` is false for every index whose word
position is at or beyond the current `top`.  (Extending `top` into the
final class-maximum word makes `BN_set_bit`'s trailing `ENSURES_B` fail:
see `set_bit_last_word_fails`.) -/
theorem bit_roundtrip (b : BIGNUM) (bitNo : Nat)
    (hs : sanityCheckBignum b = true)
    (hstat : b.flags &&& BN_FLG_STATIC_DATA = 0)
    (hcap : bitNo < b.dmax * BN_BITS2)
    (hlast : bitNo / BN_BITS2 < b.top ∨
             bitNo / BN_BITS2 + 1 < getBNMaxSize b) :
    (∃ bx, BN_set_bit b bitNo = some bx ∧
       BN_is_bit_set bx (bitNo : Int) = true) ∧
    (∀ i : Nat, b.top ≤ i / BN_BITS2 → BN_is_bit_set b (i : Int) = false) := by
  constructor
  · obtain ⟨bx, heq, hdmax, hflags, htop, htdm, hbit⟩ :=
      set_bit_spec b bitNo hs hstat hcap hlast
    refine ⟨bx, heq, ?_⟩
    have hsx : sanityCheckBignum bx = true := by
      rw [sanityCheckBignum_iff] at hs ⊢
      have hms : getBNMaxSize bx = getBNMaxSize b := by
        simp [getBNMaxSize, hflags]
      rw [hms, hdmax, hflags]
      omega
    exact is_bit_set_true_of bx bitNo hsx (hdmax ▸ hcap) htop hbit
  · intro i hi
    exact is_bit_set_beyond_top b i hi

/-- Witness for C6 at concrete inputs. -/
theorem bit_roundtrip_w :
    (sanityCheckBignum bnFive = true ∧
     bnFive.flags &&& BN_FLG_STATIC_DATA = 0 ∧
     130 < bnFive.dmax * BN_BITS2 ∧
     130 / BN_BITS2 + 1 < getBNMaxSize bnFive) ∧
    (∃ bx, BN_set_bit bnFive 130 = some bx ∧
       BN_is_bit_set bx ((130 : Nat) : Int) = true) ∧
    (∀ i : Nat, bnFive.top ≤ i / BN_BITS2 →
       BN_is_bit_set bnFive (i : Int) = false) :=
  ⟨⟨by decide, by decide, by decide, by decide⟩,
   bit_roundtrip bnFive 130 (by decide) (by decide) (by decide)
     (Or.inr (by decide))⟩

/-- C6 counterexample: the claim as stated fails on the code.  `bnFive` is
sane and non-static and bit index 4032 is within its capacity
(`4032 < 64·64`), but setting it requires extending `top` into word 63 —
the final word of the class maximum — so `BN_set_bit`'s trailing
`ENSURES_B( index < iterationBound )` fails and the call returns FALSE
without setting the bit. -/
theorem set_bit_last_word_fails :
    sanityCheckBignum bnFive = true ∧
    bnFive.flags &&& BN_FLG_STATIC_DATA = 0 ∧
    4032 < bnFive.dmax * BN_BITS2 ∧
    BN_set_bit bnFive 4032 = none := by
  refine ⟨by decide, by decide, by decide, rfl⟩

/-- C7: `BN_is_bit_set` returns `false` for every negative bit index, and
`false` for every (nonnegative) bit index whose word position is at or
beyond the bignum's current `top`, for every bignum. -/
theorem is_bit_set_defensive (b : BIGNUM) (i : Int) (j : Nat) :
    (i < 0 → BN_is_bit_set b i = false) ∧
    (b.top ≤ j / BN_BITS2 → BN_is_bit_set b (j : Int) = false) :=
  ⟨is_bit_set_neg_index b i, is_bit_set_beyond_top b j⟩

/-- Witness for C7 at concrete inputs. -/
theorem is_bit_set_defensive_w :
    ((-1 : Int) < 0 ∧ BN_is_bit_set bnFive (-1) = false) ∧
    (bnFive.top ≤ 64 / BN_BITS2 ∧ BN_is_bit_set bnFive ((64 : Nat) : Int) = false) :=
  ⟨⟨by decide, (is_bit_set_defensive bnFive (-1) 64).1 (by decide)⟩,
   ⟨by decide, (is_bit_set_defensive bnFive (-1) 64).2 (by decide)⟩⟩

/-- C8 (code bug): `BN_swap` tests `bignum1`'s flags twice and never tests
`bignum2`'s, so passing the static read-only constant one as the second
operand is not rejected: the swap runs and writes the value 5 into the
static bignum (its word 0, `top` and the preserved static flag shown
below), instead of leaving both operands untouched. -/
theorem BN_swap_static_operand_mutated :
    BN_value_one.flags &&& BN_FLG_STATIC_DATA ≠ 0 ∧
    (BN_swap bnFive BN_value_one).2.d 0 = 5 ∧
    (BN_swap bnFive BN_value_one).2.top = 1 ∧
    (BN_swap bnFive BN_value_one).2.flags = BN_FLG_STATIC_DATA ∧
    (BN_swap bnFive BN_value_one).1.d 0 = 1 := by
  refine ⟨by decide, ?_, ?_, ?_, ?_⟩ <;> rfl

/-- C10: `BN_CTX_get_ext` on any context state returns (never NULL) the
fixed slot determined by the purpose tag alone: `MONT` the first
extended-A slot, `MUL1` the first extended-B slot, `MUL2` the second
extended-B slot; the computed slot address does not mention the context at
all, so no capacity or liveness check occurs and repeated or post-release
calls yield the same slot. -/
theorem BN_CTX_get_ext_fixed_slots (c : BN_CTX) :
    BN_CTX_get_ext c .MONT = some (c.bnExtArray 0) ∧
    BN_CTX_get_ext c .MUL1 = some (c.bnExt2Array 0) ∧
    BN_CTX_get_ext c .MUL2 = some (c.bnExt2Array 1) ∧
    BN_CTX_get_ext_ref .MONT = some (false, 0) ∧
    BN_CTX_get_ext_ref .MUL1 = some (true, 0) ∧
    BN_CTX_get_ext_ref .MUL2 = some (true, 1) :=
  ⟨rfl, rfl, rfl, rfl, rfl, rfl⟩

theorem BN_CTX_end_keeps_ext_arrays (c : BN_CTX) :
    (BN_CTX_end c).bnExtArray = c.bnExtArray ∧
    (BN_CTX_end c).bnExt2Array = c.bnExt2Array := by
  simp only [BN_CTX_end]
  split_ifs <;> exact ⟨rfl, rfl⟩

/-- A context one checkpoint deep with an in-use second extended-B slot
(value 7), used as concrete input for the extended-release claims. -/
def ctxExtDemo : BN_CTX :=
  { bnArray := fun _ => BN_init,
    bnExtArray := fun _ => BN_init_ext false,
    bnExt2Array := fun i =>
      if i = 1 then
        { d := fun j => if j = 0 then 7 else 0, top := 1,
          dmax := BIGNUM_ALLOC_WORDS_EXT2, neg := false,
          flags := BN_FLG_ALLOC_EXT2 }
      else BN_init_ext true,
    stack := fun _ => 0,
    stackPos := 1,
    bnArrayMax := 0 }

/-- C9 counterexample: `MUL2` is a valid purpose tag (`BN_CTX_get_ext`
accepts it and returns the second extended-B slot), yet `BN_CTX_end_ext`
with tag `MUL2` fails its `ENSURES_V` after the standard release and
clears nothing: the slot named by the tag still holds its data
(`top = 1`, word 0 = 7) afterwards. -/
theorem end_ext_mul2_slot_not_cleared :
    BN_CTX_get_ext ctxExtDemo .MUL2 = some (ctxExtDemo.bnExt2Array 1) ∧
    (ctxExtDemo.bnExt2Array 1).top = 1 ∧
    ((BN_CTX_end_ext ctxExtDemo .MUL2).bnExt2Array 1).top = 1 ∧
    ((BN_CTX_end_ext ctxExtDemo .MUL2).bnExt2Array 1).d 0 = 7 := by
  refine ⟨rfl, rfl, ?_, ?_⟩ <;> decide

/-- C9 (amended): `BN_CTX_end_ext` always performs exactly the standard
`BN_CTX_end` release on the allocator state (pool, stack, depth,
high-water mark, for every tag); with tag `MONT` it additionally clears
the extended-A slot, with tag `MUL1` it clears both extended-B slots
(a cleared sane, non-static slot reads back with `top = 0`); with the
valid tag `MUL2` it is rejected after the standard release, clearing no
extended slot at all. -/
theorem BN_CTX_end_ext_spec (c : BN_CTX) :
    (∀ t, (BN_CTX_end_ext c t).bnArray = (BN_CTX_end c).bnArray ∧
          (BN_CTX_end_ext c t).stack = (BN_CTX_end c).stack ∧
          (BN_CTX_end_ext c t).stackPos = (BN_CTX_end c).stackPos ∧
          (BN_CTX_end_ext c t).bnArrayMax = (BN_CTX_end c).bnArrayMax) ∧
    ((BN_CTX_end_ext c .MONT).bnExtArray 0 = BN_clear (c.bnExtArray 0) ∧
     (BN_CTX_end_ext c .MONT).bnExt2Array = c.bnExt2Array) ∧
    ((BN_CTX_end_ext c .MUL1).bnExt2Array 0 = BN_clear (c.bnExt2Array 0) ∧
     (BN_CTX_end_ext c .MUL1).bnExt2Array 1 = BN_clear (c.bnExt2Array 1) ∧
     (BN_CTX_end_ext c .MUL1).bnExtArray = c.bnExtArray) ∧
    (BN_CTX_end_ext c .MUL2 = BN_CTX_end c) ∧
    ((sanityCheckBignum (c.bnExtArray 0) = true →
        (c.bnExtArray 0).flags &&& BN_FLG_STATIC_DATA = 0 →
        ((BN_CTX_end_ext c .MONT).bnExtArray 0).top = 0) ∧
     (sanityCheckBignum (c.bnExt2Array 1) = true →
        (c.bnExt2Array 1).flags &&& BN_FLG_STATIC_DATA = 0 →
        ((BN_CTX_end_ext c .MUL1).bnExt2Array 1).top = 0)) := by
  obtain ⟨he1, he2⟩ := BN_CTX_end_keeps_ext_arrays c
  have hclr : ∀ b : BIGNUM, sanityCheckBignum b = true →
      b.flags &&& BN_FLG_STATIC_DATA = 0 → (BN_clear b).top = 0 := by
    intro b hsb hb
    simp [BN_clear, hsb, hb]
  refine ⟨?_, ⟨?_, ?_⟩, ⟨?_, ?_, ?_⟩, ?_, ?_, ?_⟩
  · intro t
    cases t <;> exact ⟨rfl, rfl, rfl, rfl⟩
  · show update (BN_CTX_end c).bnExtArray 0
        (BN_clear ((BN_CTX_end c).bnExtArray 0)) 0 = BN_clear (c.bnExtArray 0)
    rw [update_at, he1]
  · exact he2
  · show (if (0 : Nat) = 0 ∨ (0 : Nat) = 1
          then BN_clear ((BN_CTX_end c).bnExt2Array 0)
          else (BN_CTX_end c).bnExt2Array 0) = BN_clear (c.bnExt2Array 0)
    rw [if_pos (Or.inl rfl), he2]
  · show (if (1 : Nat) = 0 ∨ (1 : Nat) = 1
          then BN_clear ((BN_CTX_end c).bnExt2Array 1)
          else (BN_CTX_end c).bnExt2Array 1) = BN_clear (c.bnExt2Array 1)
    rw [if_pos (Or.inr rfl), he2]
  · exact he1
  · rfl
  · intro hsb h
    show (update (BN_CTX_end c).bnExtArray 0
        (BN_clear ((BN_CTX_end c).bnExtArray 0)) 0).top = 0
    rw [update_at, he1]
    exact hclr _ hsb h
  · intro hsb h
    show (if (1 : Nat) = 0 ∨ (1 : Nat) = 1
          then BN_clear ((BN_CTX_end c).bnExt2Array 1)
          else (BN_CTX_end c).bnExt2Array 1).top = 0
    rw [if_pos (Or.inr rfl), he2]
    exact hclr _ hsb h

/-- Witness for the amended C9 at a concrete input. -/
theorem BN_CTX_end_ext_spec_w :
    sanityCheckBignum (ctxExtDemo.bnExtArray 0) = true ∧
    (ctxExtDemo.bnExtArray 0).flags &&& BN_FLG_STATIC_DATA = 0 ∧
    sanityCheckBignum (ctxExtDemo.bnExt2Array 1) = true ∧
    (ctxExtDemo.bnExt2Array 1).flags &&& BN_FLG_STATIC_DATA = 0 ∧
    ((BN_CTX_end_ext ctxExtDemo .MONT).bnExtArray 0).top = 0 ∧
    ((BN_CTX_end_ext ctxExtDemo .MUL1).bnExt2Array 1).top = 0 :=
  ⟨by decide, by decide, by decide, by decide,
   (BN_CTX_end_ext_spec ctxExtDemo).2.2.2.2.1 (by decide) (by decide),
   (BN_CTX_end_ext_spec ctxExtDemo).2.2.2.2.2 (by decide) (by decide)⟩

theorem BN_CTX_end_eq (c : BN_CTX)
    (hs : sanityCheckBNCTX c = true)
    (hmono : c.stack (c.stackPos - 1) ≤ c.stack c.stackPos)
    (hhi : c.stack c.stackPos < BN_CTX_ARRAY_SIZE) :
    BN_CTX_end c =
      { c with
         bnArray := fun j =>
           if c.stack (c.stackPos - 1) ≤ j ∧ j < c.stack c.stackPos ∧
              j < BN_CTX_ARRAY_SIZE
           then BN_clear (c.bnArray j) else c.bnArray j,
         stack := update c.stack c.stackPos 0,
         stackPos := c.stackPos - 1 } := by
  have hmax : max (c.stack (c.stackPos - 1))
      (min (c.stack c.stackPos) BN_CTX_ARRAY_SIZE) < BN_CTX_ARRAY_SIZE :=
    Nat.max_lt.mpr ⟨lt_of_le_of_lt hmono hhi,
                    lt_of_le_of_lt (Nat.min_le_left _ _) hhi⟩
  simp only [BN_CTX_end, hs, hmono, not_true_eq_false, if_false,
             not_le.mpr hmax]

/-- C2: frame property of the checkpoint release.  Under the release
preconditions (sanity, non-decreasing boundaries, the frame within the
pool), `BN_CTX_end` applies `BN_clear` to exactly the slots acquired in
the current frame `[stack[stackPos-1], stack[stackPos])` — which for a
non-static slot zeroes its words, `top` and sign — leaves every slot of
any enclosing frame (index below the frame's lower bound) completely
unchanged (words, `top` and sign survive), leaves every slot above the
frame unchanged, and pops exactly one nesting level. -/
theorem sanityCheckBNCTX_iff (c : BN_CTX) :
    sanityCheckBNCTX c = true ↔
      c.bnArrayMax ≤ BN_CTX_ARRAY_SIZE ∧ c.stackPos < BN_CTX_ARRAY_SIZE := by
  unfold sanityCheckBNCTX
  split_ifs with h1 h2 <;> simp <;> omega

theorem update_update_same {α : Type} (f : Nat → α) (i : Nat) (a b : α) :
    update (update f i a) i b = update f i b := by
  funext j
  by_cases h : j = i <;> simp [update, h]

theorem range_map_add_succ (m n : Nat) :
    (List.range (n + 1)).map (fun k => m + k)
      = m :: (List.range n).map (fun k => m + 1 + k) := by
  rw [List.range_succ_eq_map, List.map_cons, List.map_map]
  refine congrArg₂ List.cons (by omega) ?_
  refine List.map_congr_left (fun k _ => ?_)
  simp [Function.comp]
  omega

theorem BN_CTX_get_succ (c : BN_CTX)
    (hq : c.stackPos < BN_CTX_ARRAY_SIZE)
    (hc : c.bnArrayMax < BN_CTX_ARRAY_SIZE)
    (hm : c.stack c.stackPos + 1 ≤ BN_CTX_ARRAY_SIZE) :
    BN_CTX_get c =
      (some (c.stack c.stackPos),
       { c with
          stack := update c.stack c.stackPos (c.stack c.stackPos + 1),
          bnArrayMax := if c.stack c.stackPos + 1 > c.bnArrayMax
                        then c.stack c.stackPos + 1 else c.bnArrayMax }) := by
  have hs : sanityCheckBNCTX c = true :=
    (sanityCheckBNCTX_iff c).mpr ⟨le_of_lt hc, hq⟩
  have hs2 : sanityCheckBNCTX
      { c with
         stack := update c.stack c.stackPos (c.stack c.stackPos + 1),
         bnArrayMax := if c.stack c.stackPos + 1 > c.bnArrayMax
                       then c.stack c.stackPos + 1 else c.bnArrayMax }
      = true := by
    rw [sanityCheckBNCTX_iff]
    constructor
    · show (if c.stack c.stackPos + 1 > c.bnArrayMax
            then c.stack c.stackPos + 1 else c.bnArrayMax) ≤ BN_CTX_ARRAY_SIZE
      split_ifs <;> omega
    · exact hq
  simp only [BN_CTX_get, not_le.mpr hc, if_false, hs, not_true_eq_false,
             hs2, Nat.add_sub_cancel]

theorem BN_CTX_getN_spec :
    ∀ (n : Nat) (c : BN_CTX),
      c.stackPos < BN_CTX_ARRAY_SIZE →
      c.bnArrayMax < BN_CTX_ARRAY_SIZE →
      c.stack c.stackPos + n < BN_CTX_ARRAY_SIZE →
      ∃ cx, BN_CTX_getN c n =
          some ((List.range n).map (fun k => c.stack c.stackPos + k), cx) ∧
        cx.bnArray = c.bnArray ∧
        cx.bnExtArray = c.bnExtArray ∧
        cx.bnExt2Array = c.bnExt2Array ∧
        cx.stackPos = c.stackPos ∧
        cx.stack = update c.stack c.stackPos (c.stack c.stackPos + n) ∧
        c.bnArrayMax ≤ cx.bnArrayMax ∧
        cx.bnArrayMax ≤ max c.bnArrayMax (c.stack c.stackPos + n) := by
  intro n
  induction n with
  | zero =>
    intro c hq hc hm
    refine ⟨c, by simp [BN_CTX_getN], rfl, rfl, rfl, rfl, ?_, le_refl _,
            le_max_left _ _⟩
    funext j
    by_cases hj : j = c.stackPos
    · rw [hj, update_at]
      omega
    · rw [update_ne _ _ _ _ hj]
  | succ n ih =>
    intro c hq hc hm
    have hget := BN_CTX_get_succ c hq hc (by omega)
    have hq1 : ({ c with
        stack := update c.stack c.stackPos (c.stack c.stackPos + 1),
        bnArrayMax := if c.stack c.stackPos + 1 > c.bnArrayMax
                      then c.stack c.stackPos + 1 else c.bnArrayMax }
        : BN_CTX).stackPos < BN_CTX_ARRAY_SIZE := hq
    have hc1 : ({ c with
        stack := update c.stack c.stackPos (c.stack c.stackPos + 1),
        bnArrayMax := if c.stack c.stackPos + 1 > c.bnArrayMax
                      then c.stack c.stackPos + 1 else c.bnArrayMax }
        : BN_CTX).bnArrayMax < BN_CTX_ARRAY_SIZE := by
      show (if c.stack c.stackPos + 1 > c.bnArrayMax
            then c.stack c.stackPos + 1 else c.bnArrayMax) < BN_CTX_ARRAY_SIZE
      split_ifs <;> omega
    have hm1 : ({ c with
        stack := update c.stack c.stackPos (c.stack c.stackPos + 1),
        bnArrayMax := if c.stack c.stackPos + 1 > c.bnArrayMax
                      then c.stack c.stackPos + 1 else c.bnArrayMax }
        : BN_CTX).stack ({ c with
        stack := update c.stack c.stackPos (c.stack c.stackPos + 1),
        bnArrayMax := if c.stack c.stackPos + 1 > c.bnArrayMax
                      then c.stack c.stackPos + 1 else c.bnArrayMax }
        : BN_CTX).stackPos + n < BN_CTX_ARRAY_SIZE := by
      show update c.stack c.stackPos (c.stack c.stackPos + 1) c.stackPos + n
             < BN_CTX_ARRAY_SIZE
      rw [update_at]
      omega
    obtain ⟨cx, hgn, ha1, ha2, ha3, hp, hst, hmax1, hmax2⟩ :=
      ih _ hq1 hc1 hm1
    dsimp only at hgn ha1 ha2 ha3 hp hst hmax1 hmax2
    simp only [update_at] at hgn hst hmax2
    rw [update_update_same] at hst
    refine ⟨cx, ?_, ha1, ha2, ha3, hp, ?_, ?_, ?_⟩
    · unfold BN_CTX_getN
      rw [hget]
      dsimp only
      rw [hgn]
      simp only [Option.map_some']
      rw [range_map_add_succ]
    · rw [hst]
      have hv : c.stack c.stackPos + 1 + n = c.stack c.stackPos + (n + 1) := by
        omega
      rw [hv]
    · refine le_trans ?_ hmax1
      show c.bnArrayMax ≤ if c.stack c.stackPos + 1 > c.bnArrayMax
                          then c.stack c.stackPos + 1 else c.bnArrayMax
      split_ifs <;> omega
    · refine le_trans hmax2 ?_
      have hb : (if c.stack c.stackPos + 1 > c.bnArrayMax
                 then c.stack c.stackPos + 1 else c.bnArrayMax)
          ≤ max c.bnArrayMax (c.stack c.stackPos + 1) := by
        split_ifs <;> omega
      omega

theorem BN_CTX_start_eq (c : BN_CTX) (hs : sanityCheckBNCTX c = true) :
    BN_CTX_start c =
      { c with
         stackPos := c.stackPos + 1,
         stack := update c.stack (c.stackPos + 1) (c.stack c.stackPos) } := by
  simp only [BN_CTX_start, hs, not_true_eq_false, if_false,
             Nat.add_sub_cancel]

/-- C2: nesting frame correctness.  In any properly nested use (an inner
`BN_CTX_start` from a state within capacity, `n` `BN_CTX_get` calls
acquiring exactly the slots `[mark, mark+n)` above the enclosing level's
mark, arbitrary caller writes `w` into the pool), the inner `BN_CTX_end`
clears exactly the `n` slots acquired at that level, leaves every slot
below the mark — where all enclosing levels' temporaries live — entirely
unchanged (words, `top` and sign survive), leaves every slot above the
frame unchanged, and restores the enclosing nesting depth. -/
theorem checkpoint_nesting_frame (c0 : BN_CTX) (n : Nat) (w : Nat → BIGNUM)
    (hp : c0.stackPos + 1 < BN_CTX_ARRAY_SIZE)
    (hb : c0.bnArrayMax < BN_CTX_ARRAY_SIZE)
    (hm : c0.stack c0.stackPos + n < BN_CTX_ARRAY_SIZE) :
    ∃ c2,
      BN_CTX_getN (BN_CTX_start c0) n
        = some ((List.range n).map (fun k => c0.stack c0.stackPos + k), c2) ∧
      (∀ k, k < n →
         (BN_CTX_end { c2 with bnArray := w }).bnArray
             (c0.stack c0.stackPos + k)
           = BN_clear (w (c0.stack c0.stackPos + k))) ∧
      (∀ j, j < c0.stack c0.stackPos →
         (BN_CTX_end { c2 with bnArray := w }).bnArray j = w j) ∧
      (∀ j, c0.stack c0.stackPos + n ≤ j →
         (BN_CTX_end { c2 with bnArray := w }).bnArray j = w j) ∧
      (BN_CTX_end { c2 with bnArray := w }).stackPos = c0.stackPos := by
  have hs0 : sanityCheckBNCTX c0 = true :=
    (sanityCheckBNCTX_iff c0).mpr ⟨by omega, by omega⟩
  rw [BN_CTX_start_eq c0 hs0]
  obtain ⟨c2, hgn1, h2a, _, _, h2p, h2st, h2m1, h2m2⟩ :=
    BN_CTX_getN_spec n
      { c0 with
         stackPos := c0.stackPos + 1,
         stack := update c0.stack (c0.stackPos + 1) (c0.stack c0.stackPos) }
      hp hb
      (by show update c0.stack (c0.stackPos + 1) (c0.stack c0.stackPos)
              (c0.stackPos + 1) + n < BN_CTX_ARRAY_SIZE
          rw [update_at]
          exact hm)
  dsimp only at hgn1 h2a h2p h2st h2m1 h2m2
  simp only [update_at] at hgn1 h2st h2m2
  rw [update_update_same] at h2st
  have hs3 : sanityCheckBNCTX { c2 with bnArray := w } = true := by
    rw [sanityCheckBNCTX_iff]
    refine ⟨?_, ?_⟩
    · show c2.bnArrayMax ≤ BN_CTX_ARRAY_SIZE
      omega
    · show c2.stackPos < BN_CTX_ARRAY_SIZE
      omega
  have hlo : c2.stack (c2.stackPos - 1) = c0.stack c0.stackPos := by
    rw [h2p, h2st, Nat.add_sub_cancel]
    rw [update_ne _ _ _ _ (by omega)]
  have hhi2 : c2.stack c2.stackPos = c0.stack c0.stackPos + n := by
    rw [h2p, h2st, update_at]
  have hend := BN_CTX_end_eq { c2 with bnArray := w } hs3
    (by show c2.stack (c2.stackPos - 1) ≤ c2.stack c2.stackPos
        rw [hlo, hhi2]
        omega)
    (by show c2.stack c2.stackPos < BN_CTX_ARRAY_SIZE
        rw [hhi2]
        exact hm)
  simp only [hlo, hhi2] at hend
  refine ⟨c2, hgn1, ?_, ?_, ?_, ?_⟩
  · intro k hk
    rw [hend]
    dsimp only
    rw [if_pos ⟨by omega, by omega, by omega⟩]
  · intro j hj
    rw [hend]
    dsimp only
    rw [if_neg (by omega)]
  · intro j hj
    rw [hend]
    dsimp only
    rw [if_neg (by omega)]
  · rw [hend]
    show c2.stackPos - 1 = c0.stackPos
    omega

/-- A context one level deep whose outer frame already holds slot 0, used
as concrete input for the nesting witness. -/
def ctxNestDemo : BN_CTX :=
  { bnArray := fun _ => bnFive,
    bnExtArray := fun _ => BN_init_ext false,
    bnExt2Array := fun _ => BN_init_ext true,
    stack := fun j => if j = 0 then 0 else 1,
    stackPos := 1,
    bnArrayMax := 1 }

/-- Witness for C2 at a concrete input: an inner level acquiring one slot
(index 1) whose release clears that slot while the enclosing level's
slot 0 keeps its written value 5. -/
theorem checkpoint_nesting_frame_w :
    (ctxNestDemo.stackPos + 1 < BN_CTX_ARRAY_SIZE ∧
     ctxNestDemo.bnArrayMax < BN_CTX_ARRAY_SIZE ∧
     ctxNestDemo.stack ctxNestDemo.stackPos + 1 < BN_CTX_ARRAY_SIZE) ∧
    (∃ c2,
      BN_CTX_getN (BN_CTX_start ctxNestDemo) 1
        = some ((List.range 1).map
            (fun k => ctxNestDemo.stack ctxNestDemo.stackPos + k), c2) ∧
      (∀ k, k < 1 →
         (BN_CTX_end { c2 with bnArray := fun _ => bnFive }).bnArray
             (ctxNestDemo.stack ctxNestDemo.stackPos + k)
           = BN_clear ((fun _ => bnFive)
               (ctxNestDemo.stack ctxNestDemo.stackPos + k))) ∧
      (∀ j, j < ctxNestDemo.stack ctxNestDemo.stackPos →
         (BN_CTX_end { c2 with bnArray := fun _ => bnFive }).bnArray j
           = bnFive) ∧
      (∀ j, ctxNestDemo.stack ctxNestDemo.stackPos + 1 ≤ j →
         (BN_CTX_end { c2 with bnArray := fun _ => bnFive }).bnArray j
           = bnFive) ∧
      (BN_CTX_end { c2 with bnArray := fun _ => bnFive }).stackPos
        = ctxNestDemo.stackPos) :=
  ⟨⟨by decide, by decide, by decide⟩,
   checkpoint_nesting_frame ctxNestDemo 1 (fun _ => bnFive)
     (by decide) (by decide) (by decide)⟩

/-! ### Reachability invariant for the allocator -/

/-- The allocator invariant maintained by every API call: the high-water
mark never exceeds the pool capacity, every recorded boundary up to the
current depth is below the high-water mark, and once the high-water mark
has hit the pool capacity the current boundary is pinned at capacity. -/
def ctxInv (c : BN_CTX) : Prop :=
  c.bnArrayMax ≤ BN_CTX_ARRAY_SIZE ∧
  (∀ j, j ≤ c.stackPos → c.stack j ≤ c.bnArrayMax) ∧
  (BN_CTX_ARRAY_SIZE ≤ c.bnArrayMax → c.stack c.stackPos = BN_CTX_ARRAY_SIZE)

theorem ctxInv_init : ctxInv BN_CTX_init := by
  refine ⟨by simp [BN_CTX_init, BN_CTX_ARRAY_SIZE], ?_, ?_⟩
  · intro j _
    exact le_refl 0
  · intro h
    exact absurd h (by simp [BN_CTX_init, BN_CTX_ARRAY_SIZE])

theorem BN_CTX_start_eq_fail (c : BN_CTX)
    (hs : ¬ sanityCheckBNCTX c = true) : BN_CTX_start c = c := by
  unfold BN_CTX_start
  rw [if_pos hs]

theorem BN_CTX_end_eq_fail1 (c : BN_CTX)
    (hs : ¬ sanityCheckBNCTX c = true) : BN_CTX_end c = c := by
  unfold BN_CTX_end
  rw [if_pos hs]

theorem BN_CTX_end_eq_fail2 (c : BN_CTX)
    (hs : sanityCheckBNCTX c = true)
    (hmono : ¬ c.stack (c.stackPos - 1) ≤ c.stack c.stackPos) :
    BN_CTX_end c = c := by
  unfold BN_CTX_end
  rw [if_neg (not_not_intro hs), if_pos hmono]

theorem BN_CTX_end_nopop_alloc (c : BN_CTX)
    (hs : sanityCheckBNCTX c = true)
    (hmono : c.stack (c.stackPos - 1) ≤ c.stack c.stackPos)
    (hfin : max (c.stack (c.stackPos - 1))
        (min (c.stack c.stackPos) BN_CTX_ARRAY_SIZE) ≥ BN_CTX_ARRAY_SIZE) :
    (BN_CTX_end c).stack = c.stack ∧ (BN_CTX_end c).stackPos = c.stackPos ∧
    (BN_CTX_end c).bnArrayMax = c.bnArrayMax := by
  unfold BN_CTX_end
  rw [if_neg (not_not_intro hs), if_neg (not_not_intro hmono), if_pos hfin]
  exact ⟨rfl, rfl, rfl⟩

theorem BN_CTX_get_eq_full (c : BN_CTX)
    (hfull : c.bnArrayMax ≥ BN_CTX_ARRAY_SIZE) :
    BN_CTX_get c = (none, c) := by
  unfold BN_CTX_get
  rw [if_pos hfull]

theorem BN_CTX_get_eq_fail2 (c : BN_CTX)
    (hfull : ¬ c.bnArrayMax ≥ BN_CTX_ARRAY_SIZE)
    (hs : ¬ sanityCheckBNCTX c = true) :
    BN_CTX_get c = (none, c) := by
  unfold BN_CTX_get
  rw [if_neg hfull, if_pos hs]

theorem BN_CTX_get_snd (c : BN_CTX)
    (hfull : ¬ c.bnArrayMax ≥ BN_CTX_ARRAY_SIZE)
    (hs : sanityCheckBNCTX c = true) :
    (BN_CTX_get c).2 =
      { c with
         stack := update c.stack c.stackPos (c.stack c.stackPos + 1),
         bnArrayMax := if c.stack c.stackPos + 1 > c.bnArrayMax
                       then c.stack c.stackPos + 1 else c.bnArrayMax } := by
  unfold BN_CTX_get
  rw [if_neg hfull, if_neg (not_not_intro hs)]
  dsimp only
  split_ifs <;> rfl

theorem ctxInv_start (c : BN_CTX) (h : ctxInv c) :
    ctxInv (BN_CTX_start c) := by
  by_cases hs : sanityCheckBNCTX c = true
  · obtain ⟨h1, h2, h3⟩ := h
    rw [BN_CTX_start_eq c hs]
    refine ⟨h1, ?_, ?_⟩
    · intro j hj
      show update c.stack (c.stackPos + 1) (c.stack c.stackPos) j
        ≤ c.bnArrayMax
      by_cases hjp : j = c.stackPos + 1
      · rw [hjp, update_at]
        exact h2 c.stackPos (le_refl _)
      · rw [update_ne _ _ _ _ hjp]
        have hj2 : j ≤ c.stackPos + 1 := hj
        exact h2 j (by omega)
    · intro hS
      show update c.stack (c.stackPos + 1) (c.stack c.stackPos)
        (c.stackPos + 1) = BN_CTX_ARRAY_SIZE
      rw [update_at]
      exact h3 hS
  · rw [BN_CTX_start_eq_fail c hs]
    exact h

theorem ctxInv_get (c : BN_CTX) (h : ctxInv c) :
    ctxInv (BN_CTX_get c).2 := by
  obtain ⟨h1, h2, h3⟩ := h
  by_cases hfull : c.bnArrayMax ≥ BN_CTX_ARRAY_SIZE
  · rw [BN_CTX_get_eq_full c hfull]
    exact ⟨h1, h2, h3⟩
  · by_cases hs : sanityCheckBNCTX c = true
    · rw [BN_CTX_get_snd c hfull hs]
      have htop := h2 c.stackPos (le_refl _)
      refine ⟨?_, ?_, ?_⟩
      · show (if c.stack c.stackPos + 1 > c.bnArrayMax
              then c.stack c.stackPos + 1 else c.bnArrayMax)
            ≤ BN_CTX_ARRAY_SIZE
        split_ifs <;> omega
      · intro j hj
        show update c.stack c.stackPos (c.stack c.stackPos + 1) j
          ≤ (if c.stack c.stackPos + 1 > c.bnArrayMax
             then c.stack c.stackPos + 1 else c.bnArrayMax)
        by_cases hjp : j = c.stackPos
        · rw [hjp, update_at]
          split_ifs <;> omega
        · rw [update_ne _ _ _ _ hjp]
          have hjc : j ≤ c.stackPos := hj
          have := h2 j hjc
          split_ifs <;> omega
      · intro hS
        have hSx : BN_CTX_ARRAY_SIZE ≤
            (if c.stack c.stackPos + 1 > c.bnArrayMax
             then c.stack c.stackPos + 1 else c.bnArrayMax) := hS
        show update c.stack c.stackPos (c.stack c.stackPos + 1) c.stackPos
          = BN_CTX_ARRAY_SIZE
        rw [update_at]
        by_cases hgt : c.stack c.stackPos + 1 > c.bnArrayMax
        · rw [if_pos hgt] at hSx
          omega
        · rw [if_neg hgt] at hSx
          omega
    · rw [BN_CTX_get_eq_fail2 c hfull hs]
      exact ⟨h1, h2, h3⟩

theorem ctxInv_end (c : BN_CTX) (h : ctxInv c) : ctxInv (BN_CTX_end c) := by
  obtain ⟨h1, h2, h3⟩ := h
  by_cases hs : sanityCheckBNCTX c = true
  · by_cases hmono : c.stack (c.stackPos - 1) ≤ c.stack c.stackPos
    · by_cases hfin : max (c.stack (c.stackPos - 1))
          (min (c.stack c.stackPos) BN_CTX_ARRAY_SIZE) ≥ BN_CTX_ARRAY_SIZE
      · obtain ⟨e1, e2, e3⟩ := BN_CTX_end_nopop_alloc c hs hmono hfin
        refine ⟨?_, ?_, ?_⟩
        · rw [e3]
          exact h1
        · intro j hj
          rw [e2] at hj
          rw [e1, e3]
          exact h2 j hj
        · intro hS
          rw [e3] at hS
          rw [e1, e2]
          exact h3 hS
      · have hhi : c.stack c.stackPos < BN_CTX_ARRAY_SIZE := by
          omega
        rw [BN_CTX_end_eq c hs hmono hhi]
        refine ⟨h1, ?_, ?_⟩
        · intro j hj
          show update c.stack c.stackPos 0 j ≤ c.bnArrayMax
          by_cases hjp : j = c.stackPos
          · rw [hjp, update_at]
            omega
          · rw [update_ne _ _ _ _ hjp]
            have hjc : j ≤ c.stackPos - 1 := hj
            exact h2 j (by omega)
        · intro hS
          exfalso
          have hSx : BN_CTX_ARRAY_SIZE ≤ c.bnArrayMax := hS
          have := h3 hSx
          omega
    · rw [BN_CTX_end_eq_fail2 c hs hmono]
      exact ⟨h1, h2, h3⟩
  · rw [BN_CTX_end_eq_fail1 c hs]
    exact ⟨h1, h2, h3⟩

theorem ctxInv_end_ext (c : BN_CTX) (t : BIGNUM_EXT_TYPE) (h : ctxInv c) :
    ctxInv (BN_CTX_end_ext c t) := by
  have he := ctxInv_end c h
  obtain ⟨e1, e2, e3⟩ := he
  unfold BN_CTX_end_ext
  split_ifs <;> exact ⟨e1, e2, e3⟩

theorem ctxReach_inv (c : BN_CTX) (h : CtxReach c) : ctxInv c := by
  induction h with
  | init => exact ctxInv_init
  | start c _ ih => exact ctxInv_start c ih
  | stop c _ ih => exact ctxInv_end c ih
  | get c _ ih => exact ctxInv_get c ih
  | stopExt c t _ ih => exact ctxInv_end_ext c t ih
  | write c w we we2 _ ih => exact ih

/-- C3: pool exhaustion.  In every context state reachable through the
allocator API whose nesting depth respects the contract
(`stackPos < BN_CTX_ARRAY_SIZE`), `BN_CTX_get` fails (returns NULL)
exactly when handing out the next slot (index `stack[stackPos] + 1`,
1-based) would exceed the fixed pool capacity; a failing call leaves the
context completely unchanged — no growth, no slot modified — and every
repetition of the request fails again. -/
theorem pool_exhaustion (c : BN_CTX) (hr : CtxReach c)
    (hp : c.stackPos < BN_CTX_ARRAY_SIZE) :
    ((BN_CTX_get c).1 = none ↔
       BN_CTX_ARRAY_SIZE < c.stack c.stackPos + 1) ∧
    ((BN_CTX_get c).1 = none → (BN_CTX_get c).2 = c) ∧
    ((BN_CTX_get c).1 = none → (BN_CTX_get (BN_CTX_get c).2).1 = none) := by
  obtain ⟨hA, hB, hC⟩ := ctxReach_inv c hr
  by_cases hfull : c.bnArrayMax ≥ BN_CTX_ARRAY_SIZE
  · have hstack := hC (by omega)
    have hg : BN_CTX_get c = (none, c) := by
      unfold BN_CTX_get
      rw [if_pos hfull]
    rw [hg]
    refine ⟨⟨fun _ => by omega, fun _ => rfl⟩, fun _ => rfl, fun _ => ?_⟩
    show (BN_CTX_get c).1 = none
    rw [hg]
  · push_neg at hfull
    have hm1 : c.stack c.stackPos + 1 ≤ BN_CTX_ARRAY_SIZE := by
      have := hB c.stackPos (le_refl _)
      omega
    have hg := BN_CTX_get_succ c hp hfull hm1
    rw [hg]
    have hne : (some (c.stack c.stackPos) : Option Nat) ≠ none := by simp
    refine ⟨⟨fun hno => absurd hno hne, fun hlt => ?_⟩,
            fun hno => absurd hno hne, fun hno => absurd hno hne⟩
    exfalso
    omega

/-- Witness for C3 at a concrete input: the freshly initialised context. -/
theorem pool_exhaustion_w :
    BN_CTX_init.stackPos < BN_CTX_ARRAY_SIZE ∧
    (((BN_CTX_get BN_CTX_init).1 = none ↔
        BN_CTX_ARRAY_SIZE <
          BN_CTX_init.stack BN_CTX_init.stackPos + 1) ∧
     ((BN_CTX_get BN_CTX_init).1 = none →
        (BN_CTX_get BN_CTX_init).2 = BN_CTX_init) ∧
     ((BN_CTX_get BN_CTX_init).1 = none →
        (BN_CTX_get (BN_CTX_get BN_CTX_init).2).1 = none)) :=
  ⟨by decide, pool_exhaustion BN_CTX_init CtxReach.init (by decide)⟩

end CtxBn
